import Mathlib

/-!
Shallow embedding of `xoredit.py`: a dual-buffer synchronized byte editor.

Buffers are modelled as `EditArea` records holding the backing `data`
(`List (Option Nat)`, `none` is Python's `None` = Unknown cell) and the
displayed `text` (`List Char`).  All document locations are on line 0, as the
source asserts (`assert yf == 0 and yt == 0`), so an `Edit` carries only the
column coordinates.  Python list slicing `l[a:b]` is translated as
`(l.drop a).take (b - a)`; a slice bound that may be negative is translated
through `pyTake` which mirrors Python's negative-index semantics.
-/

/-- Python `l[:stop]` where `stop` may be a negative int: a negative stop
counts from the end of the list. -/
def pyTake {α : Type} (l : List α) (stop : Int) : List α :=
  if stop < 0 then l.take (l.length - stop.natAbs) else l.take stop.toNat

/-- `PLACEHOLDER = "_"` from the source (a single character). -/
def PLACEHOLDER : Char := '_'

/-- `OFFSET_DELTA = 5` from the source. -/
def OFFSET_DELTA : Nat := 5

/-- Byte values of `string.printable.replace("\x0b", "").replace("\x0c", "")`
encoded as UTF-8: digits, lowercase letters, uppercase letters, ASCII
punctuation, and the whitespace bytes space, tab, newline, carriage return
(vertical tab 0x0b and form feed 0x0c removed). -/
def PRINTABLE_BYTES : List Nat :=
  (List.range 10).map (fun i => 48 + i)
  ++ (List.range 26).map (fun i => 97 + i)
  ++ (List.range 26).map (fun i => 65 + i)
  ++ [33, 34, 35, 36, 37, 38, 39, 40, 41, 42, 43, 44, 45, 46, 47,
      58, 59, 60, 61, 62, 63, 64, 91, 92, 93, 94, 95, 96, 123, 124, 125, 126]
  ++ [32, 9, 10, 13]

/-- `EditArea.render_symbol`: map a cell (`None` or a byte/codepoint) to its
display glyph. -/
def render_symbol (c : Option Nat) : Char :=
  match c with
  | none => PLACEHOLDER
  | some c =>
    if c = 13 then Char.ofNat 0x21A9
    else if c = 10 then Char.ofNat 0x21B5
    else if c = 9 then Char.ofNat 0x21E5
    else if c = 32 then Char.ofNat 0x2423
    else if c ∈ PRINTABLE_BYTES then Char.ofNat c
    else Char.ofNat 0x25A2

/-- `EditArea.clean_whitespace`: apply `render_symbol(ord(c))` to every
character of the string. -/
def clean_whitespace (s : List Char) : List Char :=
  s.map (fun c => render_symbol (some c.toNat))

/-- A Textual `Edit` restricted to line 0: replacement text and the two
column coordinates of `from_location` / `to_location`. -/
structure Edit where
  text : List Char
  fromX : Nat
  toX : Nat
  deriving DecidableEq, Repr

/-- One `EditArea`: the backing byte `data` and the displayed `text`. -/
structure EditArea where
  data : List (Option Nat)
  text : List Char
  deriving DecidableEq, Repr

/-- `EditArea.__init__(data)`: backing data is `[None] * len(data)` and the
displayed text is `PLACEHOLDER * len(data)`. -/
def EditArea.init (input : List Nat) : EditArea :=
  { data := List.replicate input.length none
    text := List.replicate input.length PLACEHOLDER }

/-- Textual `Document.replace_range` on a single line: the two locations are
sorted, then the span between them is replaced by `ins`. -/
def replace_range (t : List Char) (s e : Nat) (ins : List Char) : List Char :=
  if e < s then t.take e ++ ins ++ t.drop s else t.take s ++ ins ++ t.drop e

/-- Textual `TextArea.get_text_range` on a single line: the two locations are
sorted, then the text between them is returned (Python slice semantics). -/
def get_text_range (t : List Char) (s e : Nat) : List Char :=
  if e < s then (t.drop e).take (s - e) else (t.drop s).take (e - s)

/-- `EditArea.edit`: clamp `to_location` to `len(self.data)`, truncate
`edit.text` to `bound - x_f` (Python slice, possibly negative) when it would
run past the bound, then apply the document edit. -/
def EditArea.edit (a : EditArea) (e : Edit) : EditArea :=
  let bound := a.data.length
  let toX := if bound < e.toX then bound else e.toX
  let text :=
    if bound < e.fromX + e.text.length then pyTake e.text ((bound : Int) - e.fromX)
    else e.text
  { a with text := replace_range a.text e.fromX toX text }

/-- The `padding = xt - xf - len(edit.text)` computed in
`EditArea.fixup_and_edit` (an int; negative paddings produce empty padding). -/
def editPadding (e : Edit) : Int :=
  (e.toX : Int) - e.fromX - e.text.length

/-- The backing-data rebuild from `EditArea.fixup_and_edit`:
`(data[:xf] + list(map(ord, text)) + [None]*padding + data[xt:])[:len(data)]`. -/
def EditArea.fixup_data (a : EditArea) (e : Edit) : List (Option Nat) :=
  (a.data.take e.fromX
    ++ e.text.map (fun c => (some c.toNat : Option Nat))
    ++ List.replicate (editPadding e).toNat (none : Option Nat)
    ++ a.data.drop e.toX).take a.data.length

/-- The edit with its text padded by `padding * PLACEHOLDER` and passed
through `clean_whitespace`, as done at the end of `fixup_and_edit`. -/
def Edit.padded (e : Edit) : Edit :=
  { e with text := clean_whitespace (e.text ++ List.replicate (editPadding e).toNat PLACEHOLDER) }

/-- `EditArea.fixup_and_edit(edit, emit=False)`: update the backing data,
then apply the padded, cleaned edit to the displayed text. -/
def EditArea.fixup_and_edit_noemit (a : EditArea) (e : Edit) : EditArea :=
  EditArea.edit { a with data := a.fixup_data e } e.padded

/-- `EditArea.undo` is `pass`: the state is unchanged. -/
def EditArea.undo (a : EditArea) : EditArea := a

/-- `EditArea.redo` is `pass`: the state is unchanged. -/
def EditArea.redo (a : EditArea) : EditArea := a

/-- Which of the two editable areas is meant (`top_area` / `bot_area`). -/
inductive AreaId where
  | top
  | bot
  deriving DecidableEq, Repr

/-- `XOREditApp.other_area`. -/
def AreaId.other : AreaId → AreaId
  | .top => .bot
  | .bot => .top

/-- The application state: the two areas, the keystream, and the two
rendering toggles owned by the `InterleaveArea`. -/
structure XOREditApp where
  top_area : EditArea
  bot_area : EditArea
  keystream : List Nat
  show_pipes : Bool
  show_offsets : Bool
  deriving DecidableEq, Repr

def XOREditApp.getArea (app : XOREditApp) : AreaId → EditArea
  | .top => app.top_area
  | .bot => app.bot_area

def XOREditApp.setArea (app : XOREditApp) : AreaId → EditArea → XOREditApp
  | .top, a => { app with top_area := a }
  | .bot, a => { app with bot_area := a }

/-- `XOREditApp.load_data(c1, c2)`: construct both areas from the ciphertext
lengths and compute `keystream = [a ^ b for a, b in zip(c1, c2)]`.  The
`InterleaveArea` toggles start as `True`. -/
def XOREditApp.load_data (c1 c2 : List Nat) : XOREditApp :=
  { top_area := EditArea.init c1
    bot_area := EditArea.init c2
    keystream := (c1.zip c2).map (fun p => p.1 ^^^ p.2)
    show_pipes := true
    show_offsets := true }

/-- `XOREditApp.spread_edit(source, edit)`: XOR the edited text with
`keystream[xf:xt]` (zip truncates to the shorter of the two) and apply the
mirrored edit to the partner area without re-emitting. -/
def XOREditApp.spread_edit (app : XOREditApp) (source : AreaId) (e : Edit) : XOREditApp :=
  let dest := source.other
  let keybytes := (app.keystream.drop e.fromX).take (e.toX - e.fromX)
  let newbytes := (e.text.zip keybytes).map (fun p => Char.ofNat (p.1.toNat ^^^ p.2))
  let e2 : Edit := { text := newbytes, fromX := e.fromX, toX := e.toX }
  app.setArea dest ((app.getArea dest).fixup_and_edit_noemit e2)

/-- `EditArea.fixup_and_edit(edit, emit=True)` lifted to the app: update the
source backing data, spread the (unpadded) edit to the partner, then apply
the padded edit to the source displayed text. -/
def XOREditApp.fixup_and_edit (app : XOREditApp) (area : AreaId) (e : Edit) : XOREditApp :=
  let a := app.getArea area
  let app1 := app.setArea area { a with data := a.fixup_data e }
  let app2 := app1.spread_edit area e
  app2.setArea area ((app2.getArea area).edit e.padded)

/-- `EditArea.replace` lifted to the app: flip a right-to-left selection, pad
the insert to the selection length, extend `end` when the replacement is
longer than the selection, then run the mirrored fixup-and-edit. -/
def XOREditApp.replaceOp (app : XOREditApp) (area : AreaId) (insert : List Char)
    (selStart selEnd : Nat) : XOREditApp :=
  let p := if selEnd < selStart then (selEnd, selStart) else (selStart, selEnd)
  let delta := p.2 - p.1
  let pad_length := delta - insert.length
  let new_end := p.1 + insert.length + pad_length
  app.fixup_and_edit area { text := insert, fromX := p.1, toX := new_end }

/-- `EditArea.delete` lifted to the app: flip a right-to-left selection and
replace the contents of the range with the empty string. -/
def XOREditApp.deleteOp (app : XOREditApp) (area : AreaId) (selStart selEnd : Nat) : XOREditApp :=
  let p := if selEnd < selStart then (selEnd, selStart) else (selStart, selEnd)
  app.fixup_and_edit area { text := [], fromX := p.1, toX := p.2 }

/-- The effective exchanged range `[start, end)` computed by
`action_exchange_selection`: flip a reversed selection, widen a bare cursor
by one, then clamp the end to `len(dest.text)`. -/
def XOREditApp.exchangeRange (app : XOREditApp) (source : AreaId)
    (selStart selEnd : Nat) : Nat × Nat :=
  let dest := source.other
  let p := if selEnd < selStart then (selEnd, selStart) else (selStart, selEnd)
  let e1 := if p.1 = p.2 then p.2 + 1 else p.2
  (p.1, min e1 (app.getArea dest).text.length)

/-- `XOREditApp.action_exchange_selection`: swap the displayed text and the
backing bytes of the effective range between the focused (source) area and
the other (dest) area. -/
def XOREditApp.action_exchange_selection (app : XOREditApp) (source : AreaId)
    (selStart selEnd : Nat) : XOREditApp :=
  let dest := source.other
  let r := app.exchangeRange source selStart selEnd
  let start := r.1
  let stop := r.2
  let src0 := app.getArea source
  let dst0 := app.getArea dest
  let source_edit : Edit :=
    { text := get_text_range dst0.text start stop, fromX := start, toX := stop }
  let dest_edit : Edit :=
    { text := get_text_range src0.text start stop, fromX := start, toX := stop }
  let src1 := src0.edit source_edit
  let dst1 := dst0.edit dest_edit
  let t := (src1.data.drop start).take (stop - start)
  let srcData :=
    src1.data.take start ++ (dst1.data.drop start).take (stop - start) ++ src1.data.drop stop
  let src2 := { src1 with data := srcData }
  let dst2 := { dst1 with data := dst1.data.take start ++ t ++ dst1.data.drop stop }
  (app.setArea source src2).setArea dest dst2

/-- `InterleaveArea.toggle_pipes` (state change only; rendering is the pure
function `populate`). -/
def XOREditApp.toggle_pipes (app : XOREditApp) : XOREditApp :=
  { app with show_pipes := !app.show_pipes }

/-- `InterleaveArea.toggle_offsets`. -/
def XOREditApp.toggle_offsets (app : XOREditApp) : XOREditApp :=
  { app with show_offsets := !app.show_offsets }

/-- Python `range(0, stop, step)` for a nonnegative step (`step = 0` raises
in Python; it is modelled as the empty range). -/
def pyRangeStep (stop step : Nat) : List Nat :=
  if step = 0 then [] else (List.range ((stop + step - 1) / step)).map (fun k => k * step)

/-- Python `f"{n:<5}"`: decimal digits of `n` left-justified in a field of
width 5. -/
def ljust5 (n : Nat) : List Char :=
  let s := (toString n).toList
  s ++ List.replicate (5 - s.length) ' '

/-- The offsets ruler of one window of `InterleaveArea.populate`: phase
padding, then a label every `OFFSET_DELTA` columns while the line is shorter
than `w - 5`. -/
def offsetsLine (i w : Nat) : List Char :=
  let pad_len := (OFFSET_DELTA - i % OFFSET_DELTA) % OFFSET_DELTA
  (pyRangeStep w OFFSET_DELTA).foldl
    (fun acc j => if acc.length < w - 5 then acc ++ ljust5 (pad_len + i + j) else acc)
    (List.replicate pad_len ' ')

/-- The pipe-heuristic ruler of one window: a `|` where the keystream byte
has both bit 0x20 and bit 0x40 set. -/
def pipesLine (keystream : List Nat) (i w : Nat) : List Char :=
  ((keystream.drop i).take w).map (fun b => if b &&& 96 = 96 then '|' else ' ')

/-- The lines appended for the window starting at offset `i` in
`InterleaveArea.populate`: optional offsets ruler, one line per area (top
then bottom), optional pipes ruler, then two empty separator lines. -/
def XOREditApp.windowLines (app : XOREditApp) (w i : Nat) : List (List Char) :=
  (if app.show_offsets then [offsetsLine i w] else [])
  ++ [(app.top_area.text.drop i).take w, (app.bot_area.text.drop i).take w]
  ++ (if app.show_pipes then [pipesLine app.keystream i w] else [])
  ++ [[], []]

/-- `InterleaveArea.populate` as a pure rendering function of the state and
the usable width `w` (`self.size.width - 3` in the source): the list of
display lines, later joined with newlines. -/
def XOREditApp.populate (app : XOREditApp) (w : Nat) : List (List Char) :=
  let maxlen := max app.top_area.text.length app.bot_area.text.length
  (pyRangeStep maxlen w).foldl (fun text i => text ++ app.windowLines w i) []

/-- The user-driven operations of a session. -/
inductive Op where
  | replace (area : AreaId) (insert : List Char) (selStart selEnd : Nat)
  | delete (area : AreaId) (selStart selEnd : Nat)
  | exchange (area : AreaId) (selStart selEnd : Nat)
  | undo (area : AreaId)
  | redo (area : AreaId)
  | toggle_pipes
  | toggle_offsets
  deriving DecidableEq, Repr

/-- One step of the session: dispatch an operation. -/
def XOREditApp.step (app : XOREditApp) : Op → XOREditApp
  | .replace area insert s e => app.replaceOp area insert s e
  | .delete area s e => app.deleteOp area s e
  | .exchange area s e => app.action_exchange_selection area s e
  | .undo area => app.setArea area ((app.getArea area).undo)
  | .redo area => app.setArea area ((app.getArea area).redo)
  | .toggle_pipes => app.toggle_pipes
  | .toggle_offsets => app.toggle_offsets

/-- Run a sequence of operations. -/
def XOREditApp.run (app : XOREditApp) : List Op → XOREditApp
  | [] => app
  | op :: ops => (app.step op).run ops

/-- The conditions the UI guarantees for an operation: selections lie within
the focused area's displayed text, and edited text consists of byte-valued
characters (guessed plaintext bytes). -/
def Op.valid (app : XOREditApp) : Op → Bool
  | .replace area insert s e =>
    decide (s ≤ (app.getArea area).text.length) && decide (e ≤ (app.getArea area).text.length)
      && insert.all (fun c => decide (c.toNat < 256))
  | .delete area s e =>
    decide (s ≤ (app.getArea area).text.length) && decide (e ≤ (app.getArea area).text.length)
  | .exchange area s e =>
    decide (s ≤ (app.getArea area).text.length) && decide (e ≤ (app.getArea area).text.length)
  | _ => true

/-- A sequence of operations each valid in the state it is applied to. -/
def validSeq (app : XOREditApp) : List Op → Bool
  | [] => true
  | op :: ops => op.valid app && validSeq (app.step op) ops

/-- Whether an operation is an undo or a redo. -/
def Op.isUndoRedo : Op → Bool
  | .undo _ => true
  | .redo _ => true
  | _ => false

/-- The mirror relation between two backing-data arrays over a keystream:
wherever both cells are known below the keystream length, they XOR to the
keystream byte. -/
def MirrorP (ks : List Nat) (x y : List (Option Nat)) : Prop :=
  ∀ (i k a b : Nat), ks[i]? = some k →
    x[i]? = some (some a) → y[i]? = some (some b) → a ^^^ b = k

/-- The mirror invariant of the application state. -/
def Mirror (app : XOREditApp) : Prop :=
  MirrorP app.keystream app.top_area.data app.bot_area.data

/-- The sided session invariant over a keystream: the keystream is no longer
than either backing array or either displayed text, and the two backing
arrays mirror each other. -/
def SInv (ks : List Nat) (src dst : EditArea) : Prop :=
  ks.length ≤ src.data.length ∧ ks.length ≤ dst.data.length ∧
  ks.length ≤ src.text.length ∧ ks.length ≤ dst.text.length ∧
  MirrorP ks src.data dst.data

/-- The full session invariant: keystream bytes are bytes, and the sided
invariant holds for the two areas. -/
def SessionInv (app : XOREditApp) : Prop :=
  (∀ b ∈ app.keystream, b < 256) ∧ SInv app.keystream app.top_area app.bot_area

/-! ### Basic lemmas about the embedding -/

theorem AreaId.other_other (id : AreaId) : id.other.other = id := by
  cases id <;> rfl

theorem XOREditApp.getArea_setArea_same (app : XOREditApp) (id : AreaId) (a : EditArea) :
    (app.setArea id a).getArea id = a := by
  cases id <;> rfl

theorem XOREditApp.getArea_setArea_other (app : XOREditApp) (id : AreaId) (a : EditArea) :
    (app.setArea id a).getArea id.other = app.getArea id.other := by
  cases id <;> rfl

theorem XOREditApp.keystream_setArea (app : XOREditApp) (id : AreaId) (a : EditArea) :
    (app.setArea id a).keystream = app.keystream := by
  cases id <;> rfl

theorem EditArea.edit_data (a : EditArea) (e : Edit) : (a.edit e).data = a.data := rfl

theorem char_toNat_ofNat {n : Nat} (h : n < 55296) : (Char.ofNat n).toNat = n := by
  have hv : n.isValidChar := Or.inl h
  simp only [Char.ofNat, dif_pos hv]
  rfl

theorem splice2_getElem {α : Type} (l m : List α) (s e i : Nat) (hi : i < l.length) :
    (l.take s ++ m ++ l.drop e)[i]? =
      if i < s then l[i]?
      else if i - s < m.length then m[i - s]?
      else l[e + (i - s - m.length)]? := by
  rw [List.append_assoc, List.getElem?_append]
  by_cases h1 : i < s
  · rw [if_pos (by simp [List.length_take]; omega : i < (l.take s).length)]
    rw [List.getElem?_take, if_pos h1, if_pos h1]
  · have hlen : (l.take s).length = s := by simp [List.length_take]; omega
    rw [if_neg (by omega : ¬ i < (l.take s).length), hlen, if_neg h1,
      List.getElem?_append, List.getElem?_drop]

theorem editPadding_toNat (e : Edit) :
    (editPadding e).toNat = e.toX - e.fromX - e.text.length := by
  unfold editPadding
  omega

theorem fixup_data_length (a : EditArea) (e : Edit) :
    (a.fixup_data e).length = a.data.length := by
  unfold EditArea.fixup_data
  simp only [List.length_take, List.length_append, List.length_map, List.length_replicate,
    List.length_drop, editPadding_toNat]
  omega

theorem fixup_data_getElem (a : EditArea) (e : Edit) (i : Nat) (hi : i < a.data.length) :
    (a.fixup_data e)[i]? =
      if i < e.fromX then a.data[i]?
      else if i - e.fromX <
          (e.text.map (fun c => (some c.toNat : Option Nat))
            ++ List.replicate (editPadding e).toNat (none : Option Nat)).length then
        (e.text.map (fun c => (some c.toNat : Option Nat))
          ++ List.replicate (editPadding e).toNat (none : Option Nat))[i - e.fromX]?
      else
        a.data[e.toX + (i - e.fromX -
          (e.text.map (fun c => (some c.toNat : Option Nat))
            ++ List.replicate (editPadding e).toNat (none : Option Nat)).length)]? := by
  unfold EditArea.fixup_data
  rw [List.getElem?_take, if_pos hi]
  rw [show
    a.data.take e.fromX ++ e.text.map (fun c => (some c.toNat : Option Nat))
      ++ List.replicate (editPadding e).toNat (none : Option Nat) ++ a.data.drop e.toX
    = a.data.take e.fromX
      ++ (e.text.map (fun c => (some c.toNat : Option Nat))
          ++ List.replicate (editPadding e).toNat (none : Option Nat))
      ++ a.data.drop e.toX by simp [List.append_assoc]]
  exact splice2_getElem a.data _ e.fromX e.toX i hi

theorem edit_text_len_ge (a : EditArea) (e : Edit) (K : Nat)
    (hKL : K ≤ a.data.length) (hKT : K ≤ a.text.length)
    (ht : e.toX - e.fromX ≤ e.text.length)
    (hx : e.fromX ≤ e.toX ∨ K ≤ e.toX) :
    K ≤ ((a.edit e).text).length := by
  simp only [EditArea.edit, replace_range, pyTake]
  split_ifs <;>
    simp only [List.length_append, List.length_take, List.length_drop] <;>
    omega

theorem edit_text_len_exact (a : EditArea) (e : Edit)
    (hTL : a.text.length = a.data.length)
    (hfx : e.fromX ≤ e.toX) (hfT : e.fromX ≤ a.data.length)
    (ht : e.text.length = e.toX - e.fromX) :
    ((a.edit e).text).length = a.data.length := by
  simp only [EditArea.edit, replace_range, pyTake]
  split_ifs <;>
    simp only [List.length_append, List.length_take, List.length_drop] <;>
    omega

theorem mirrorP_symm {ks : List Nat} {x y : List (Option Nat)} (h : MirrorP ks x y) :
    MirrorP ks y x := by
  intro i k a b hk hy hx
  rw [Nat.xor_comm]
  exact h i k b a hk hx hy

theorem fixup_mirrorP (ks : List Nat) (src dst : EditArea) (e : Edit)
    (hks : ∀ b ∈ ks, b < 256) (htext : ∀ c ∈ e.text, c.toNat < 256)
    (hfx : e.fromX ≤ e.toX)
    (hlen : e.text.length ≤ e.toX - e.fromX)
    (hKs : ks.length ≤ src.data.length) (hKd : ks.length ≤ dst.data.length)
    (hm : MirrorP ks src.data dst.data) :
    MirrorP ks (src.fixup_data e)
      (dst.fixup_data
        { text := (e.text.zip ((ks.drop e.fromX).take (e.toX - e.fromX))).map
            (fun p => Char.ofNat (p.1.toNat ^^^ p.2)),
          fromX := e.fromX, toX := e.toX }) := by
  intro i k a b hk hx hy
  have hik : i < ks.length := (List.getElem?_eq_some.mp hk).1
  have his : i < src.data.length := lt_of_lt_of_le hik hKs
  have hid : i < dst.data.length := lt_of_lt_of_le hik hKd
  rw [fixup_data_getElem src e i his] at hx
  rw [fixup_data_getElem dst _ i hid] at hy
  simp only [List.length_append, List.length_map, List.length_replicate, List.length_zip,
    List.length_take, List.length_drop, editPadding_toNat, inf_eq_min] at hx hy
  by_cases h1 : i < e.fromX
  · rw [if_pos h1] at hx hy
    exact hm i k a b hk hx hy
  · rw [if_neg h1] at hx hy
    by_cases h2 : i < e.toX
    · -- the edited region
      rw [if_pos (by omega)] at hx
      rw [if_pos (by omega)] at hy
      -- hy lives in the mirrored bytes or in the None padding
      rw [List.getElem?_append] at hy
      simp only [List.length_map, List.length_zip, List.length_take, List.length_drop,
        inf_eq_min] at hy
      by_cases h4 : i - e.fromX < min e.text.length (min (e.toX - e.fromX) (ks.length - e.fromX))
      · rw [if_pos h4] at hy
        -- hx lives in the inserted bytes
        rw [List.getElem?_append] at hx
        simp only [List.length_map] at hx
        rw [if_pos (by omega)] at hx
        rw [List.getElem?_map] at hx
        rw [List.getElem?_map, List.getElem?_map] at hy
        have h5 : i - e.fromX < e.text.length := by omega
        have h6 : i - e.fromX < ((ks.drop e.fromX).take (e.toX - e.fromX)).length := by
          simp only [List.length_take, List.length_drop]
          omega
        rw [List.getElem?_eq_getElem h5] at hx
        have hzlen : i - e.fromX < (e.text.zip ((ks.drop e.fromX).take (e.toX - e.fromX))).length := by
          simp only [List.length_zip, List.length_take, List.length_drop, inf_eq_min]
          omega
        rw [List.getElem?_eq_getElem hzlen, List.getElem_zip] at hy
        have hkb : ((ks.drop e.fromX).take (e.toX - e.fromX))[i - e.fromX] = k := by
          have : ((ks.drop e.fromX).take (e.toX - e.fromX))[i - e.fromX]? = some k := by
            rw [List.getElem?_take, if_pos (by omega), List.getElem?_drop]
            rw [show e.fromX + (i - e.fromX) = i by omega]
            exact hk
          rw [List.getElem?_eq_getElem h6] at this
          exact Option.some_injective _ this
        simp only [Option.map_some'] at hx hy
        have ha : a = (e.text[i - e.fromX]).toNat := by
          have := Option.some_injective _ hx
          have := Option.some_injective _ this
          omega
        have hb : b = (Char.ofNat ((e.text[i - e.fromX]).toNat ^^^ k)).toNat := by
          rw [hkb] at hy
          have := Option.some_injective _ hy
          have := Option.some_injective _ this
          omega
        have htb : (e.text[i - e.fromX]).toNat < 256 :=
          htext _ (List.getElem_mem h5)
        have hkb256 : k < 256 := hks k (List.getElem?_mem hk)
        have hxor : (e.text[i - e.fromX]).toNat ^^^ k < 55296 := by
          have : (e.text[i - e.fromX]).toNat ^^^ k < 256 := by
            have h8 : (256 : Nat) = 2 ^ 8 := by norm_num
            rw [h8] at htb hkb256 ⊢
            exact Nat.xor_lt_two_pow htb hkb256
          omega
        rw [hb, char_toNat_ofNat hxor, ha]
        rw [← Nat.xor_assoc, Nat.xor_self, Nat.zero_xor]
      · rw [if_neg h4, List.getElem?_replicate] at hy
        split at hy <;> simp at hy
    · -- beyond the edited range: both unchanged
      rw [if_neg (by omega)] at hx
      rw [if_neg (by omega)] at hy
      rw [show e.toX + (i - e.fromX - (e.text.length + (e.toX - e.fromX - e.text.length))) = i
        by omega] at hx
      rw [show e.toX + (i - e.fromX -
          (min e.text.length (min (e.toX - e.fromX) (ks.length - e.fromX))
            + (e.toX - e.fromX - min e.text.length (min (e.toX - e.fromX) (ks.length - e.fromX))))) = i
        by omega] at hy
      exact hm i k a b hk hx hy

theorem exchange_mirrorP (ks : List Nat) (sd dd : List (Option Nat)) (start stop : Nat)
    (hKs : ks.length ≤ sd.length) (hKd : ks.length ≤ dd.length)
    (hcase : start ≤ stop ∨ ks.length ≤ stop)
    (hm : MirrorP ks sd dd) :
    MirrorP ks
      (sd.take start ++ (dd.drop start).take (stop - start) ++ sd.drop stop)
      (dd.take start ++ (sd.drop start).take (stop - start) ++ dd.drop stop) := by
  intro i k a b hk hx hy
  have hik : i < ks.length := (List.getElem?_eq_some.mp hk).1
  have his : i < sd.length := lt_of_lt_of_le hik hKs
  have hid : i < dd.length := lt_of_lt_of_le hik hKd
  rw [splice2_getElem sd _ start stop i his] at hx
  rw [splice2_getElem dd _ start stop i hid] at hy
  simp only [List.length_take, List.length_drop] at hx hy
  by_cases h1 : i < start
  · rw [if_pos h1] at hx hy
    exact hm i k a b hk hx hy
  · rw [if_neg h1] at hx hy
    by_cases h2 : i < stop
    · rw [if_pos (by omega)] at hx
      rw [if_pos (by omega)] at hy
      rw [List.getElem?_take, if_pos (by omega), List.getElem?_drop,
        show start + (i - start) = i by omega] at hx
      rw [List.getElem?_take, if_pos (by omega), List.getElem?_drop,
        show start + (i - start) = i by omega] at hy
      rw [Nat.xor_comm]
      exact hm i k b a hk hy hx
    · have hss : start ≤ stop := by
        rcases hcase with h | h
        · exact h
        · omega
      rw [if_neg (by omega)] at hx
      rw [if_neg (by omega)] at hy
      rw [show stop + (i - start - min (stop - start) (dd.length - start)) = i by omega] at hx
      rw [show stop + (i - start - min (stop - start) (sd.length - start)) = i by omega] at hy
      exact hm i k a b hk hx hy

theorem padded_text_length (e : Edit) :
    e.padded.text.length = e.text.length + (e.toX - e.fromX - e.text.length) := by
  simp [Edit.padded, clean_whitespace, editPadding_toNat]

theorem padded_fromX (e : Edit) : e.padded.fromX = e.fromX := rfl

theorem padded_toX (e : Edit) : e.padded.toX = e.toX := rfl

theorem noemit_data (a : EditArea) (e : Edit) :
    (a.fixup_and_edit_noemit e).data = a.fixup_data e := rfl

theorem XOREditApp.setArea_getArea (app : XOREditApp) (id : AreaId) :
    app.setArea id (app.getArea id) = app := by
  cases id <;> rfl

theorem sinv_symm {ks : List Nat} {x y : EditArea} (h : SInv ks x y) : SInv ks y x := by
  obtain ⟨a, b, c, d, m⟩ := h
  exact ⟨b, a, d, c, mirrorP_symm m⟩

theorem sfixup_inv (ks : List Nat) (src dst : EditArea) (e : Edit)
    (hks : ∀ b ∈ ks, b < 256) (htext : ∀ c ∈ e.text, c.toNat < 256)
    (hfx : e.fromX ≤ e.toX) (hlen : e.text.length ≤ e.toX - e.fromX)
    (hS : SInv ks src dst) :
    SInv ks (EditArea.edit { src with data := src.fixup_data e } e.padded)
      (dst.fixup_and_edit_noemit
        { text := (e.text.zip ((ks.drop e.fromX).take (e.toX - e.fromX))).map
            (fun p => Char.ofNat (p.1.toNat ^^^ p.2)),
          fromX := e.fromX, toX := e.toX }) := by
  obtain ⟨hLs, hLd, hTs, hTd, hm⟩ := hS
  set e2 : Edit :=
    { text := (e.text.zip ((ks.drop e.fromX).take (e.toX - e.fromX))).map
        (fun p => Char.ofNat (p.1.toNat ^^^ p.2)),
      fromX := e.fromX, toX := e.toX } with he2
  have he2len : e2.text.length ≤ e.toX - e.fromX := by
    rw [he2]
    simp only [List.length_map, List.length_zip, List.length_take, List.length_drop,
      inf_eq_min]
    omega
  have he2from : e2.fromX = e.fromX := rfl
  have he2to : e2.toX = e.toX := rfl
  refine ⟨?_, ?_, ?_, ?_, ?_⟩
  · rw [EditArea.edit_data]
    show ks.length ≤ (src.fixup_data e).length
    rw [fixup_data_length]
    exact hLs
  · rw [noemit_data, fixup_data_length]
    exact hLd
  · refine edit_text_len_ge _ _ _ ?_ hTs ?_ (Or.inl ?_)
    · show ks.length ≤ (src.fixup_data e).length
      rw [fixup_data_length]
      exact hLs
    · rw [padded_text_length, padded_fromX, padded_toX]
      omega
    · rw [padded_fromX, padded_toX]
      exact hfx
  · show ks.length ≤ ((EditArea.edit { dst with data := dst.fixup_data e2 } e2.padded).text).length
    refine edit_text_len_ge _ _ _ ?_ hTd ?_ (Or.inl ?_)
    · show ks.length ≤ (dst.fixup_data e2).length
      rw [fixup_data_length]
      exact hLd
    · rw [padded_text_length, padded_fromX, padded_toX, he2from, he2to]
      omega
    · rw [padded_fromX, padded_toX, he2from, he2to]
      exact hfx
  · rw [EditArea.edit_data, noemit_data]
    show MirrorP ks (src.fixup_data e) (dst.fixup_data e2)
    rw [he2]
    exact fixup_mirrorP ks src dst e hks htext hfx hlen hLs hLd hm

theorem sexchange_inv (ks : List Nat) (src dst : EditArea) (start stop : Nat)
    (hcase : start ≤ stop ∨ ks.length ≤ stop)
    (hstop : stop ≤ dst.text.length)
    (hS : SInv ks src dst) :
    SInv ks
      { src.edit { text := get_text_range dst.text start stop, fromX := start, toX := stop } with
          data := src.data.take start ++ (dst.data.drop start).take (stop - start)
            ++ src.data.drop stop }
      { dst.edit { text := get_text_range src.text start stop, fromX := start, toX := stop } with
          data := dst.data.take start ++ (src.data.drop start).take (stop - start)
            ++ dst.data.drop stop } := by
  obtain ⟨hLs, hLd, hTs, hTd, hm⟩ := hS
  refine ⟨?_, ?_, ?_, ?_, ?_⟩
  · show ks.length ≤ (src.data.take start ++ (dst.data.drop start).take (stop - start)
      ++ src.data.drop stop).length
    simp only [List.length_append, List.length_take, List.length_drop]
    omega
  · show ks.length ≤ (dst.data.take start ++ (src.data.drop start).take (stop - start)
      ++ dst.data.drop stop).length
    simp only [List.length_append, List.length_take, List.length_drop]
    omega
  · show ks.length ≤ ((src.edit
      { text := get_text_range dst.text start stop, fromX := start, toX := stop }).text).length
    refine edit_text_len_ge _ _ _ hLs hTs ?_ hcase
    simp only [get_text_range]
    split_ifs <;> simp only [List.length_take, List.length_drop] <;> omega
  · show ks.length ≤ ((dst.edit
      { text := get_text_range src.text start stop, fromX := start, toX := stop }).text).length
    rcases hcase with hss | hks2 <;>
      (simp only [EditArea.edit, replace_range, pyTake, get_text_range]
       split_ifs <;> simp only [List.length_append, List.length_take, List.length_drop] <;> omega)
  · show MirrorP ks (src.data.take start ++ (dst.data.drop start).take (stop - start)
      ++ src.data.drop stop)
      (dst.data.take start ++ (src.data.drop start).take (stop - start) ++ dst.data.drop stop)
    exact exchange_mirrorP ks src.data dst.data start stop hLs hLd hcase hm

theorem exchangeRange_spec (app : XOREditApp) (source : AreaId) (s0 e0 : Nat) :
    (app.exchangeRange source s0 e0).1 ≤ (app.exchangeRange source s0 e0).2 ∨
      (app.getArea source.other).text.length ≤ (app.exchangeRange source s0 e0).2 := by
  unfold XOREditApp.exchangeRange
  split_ifs <;> simp <;> split_ifs <;> omega

theorem exchangeRange_le (app : XOREditApp) (source : AreaId) (s0 e0 : Nat) :
    (app.exchangeRange source s0 e0).2 ≤ (app.getArea source.other).text.length := by
  unfold XOREditApp.exchangeRange
  split_ifs <;> simp

theorem fixup_and_edit_inv (app : XOREditApp) (area : AreaId) (e : Edit)
    (htext : ∀ c ∈ e.text, c.toNat < 256)
    (hfx : e.fromX ≤ e.toX) (hlen : e.text.length ≤ e.toX - e.fromX)
    (hI : SessionInv app) : SessionInv (app.fixup_and_edit area e) := by
  obtain ⟨hks, hS⟩ := hI
  cases area
  · exact ⟨hks, sfixup_inv app.keystream app.top_area app.bot_area e hks htext hfx hlen hS⟩
  · exact ⟨hks,
      sinv_symm (sfixup_inv app.keystream app.bot_area app.top_area e hks htext hfx hlen
        (sinv_symm hS))⟩

theorem exchange_inv (app : XOREditApp) (source : AreaId) (s0 e0 : Nat)
    (hI : SessionInv app) :
    SessionInv (app.action_exchange_selection source s0 e0) := by
  obtain ⟨hks, hS⟩ := hI
  have hcase0 := exchangeRange_spec app source s0 e0
  have hstop0 := exchangeRange_le app source s0 e0
  cases source
  · have hcase : (app.exchangeRange .top s0 e0).1 ≤ (app.exchangeRange .top s0 e0).2 ∨
        app.keystream.length ≤ (app.exchangeRange .top s0 e0).2 := by
      rcases hcase0 with h | h
      · exact Or.inl h
      · exact Or.inr (le_trans hS.2.2.2.1 h)
    exact ⟨hks, sexchange_inv app.keystream app.top_area app.bot_area
      (app.exchangeRange .top s0 e0).1 (app.exchangeRange .top s0 e0).2 hcase hstop0 hS⟩
  · have hcase : (app.exchangeRange .bot s0 e0).1 ≤ (app.exchangeRange .bot s0 e0).2 ∨
        app.keystream.length ≤ (app.exchangeRange .bot s0 e0).2 := by
      rcases hcase0 with h | h
      · exact Or.inl h
      · exact Or.inr (le_trans hS.2.2.1 h)
    exact ⟨hks, sinv_symm (sexchange_inv app.keystream app.bot_area app.top_area
      (app.exchangeRange .bot s0 e0).1 (app.exchangeRange .bot s0 e0).2 hcase hstop0
      (sinv_symm hS))⟩

theorem step_keystream (app : XOREditApp) (op : Op) :
    (app.step op).keystream = app.keystream := by
  cases op with
  | replace area insert s e => cases area <;> rfl
  | delete area s e => cases area <;> rfl
  | exchange area s e => cases area <;> rfl
  | undo area => cases area <;> rfl
  | redo area => cases area <;> rfl
  | toggle_pipes => rfl
  | toggle_offsets => rfl

theorem step_inv (app : XOREditApp) (op : Op) (hv : op.valid app = true)
    (hI : SessionInv app) : SessionInv (app.step op) := by
  cases op with
  | replace area insert s e =>
    simp only [Op.valid, Bool.and_eq_true, decide_eq_true_eq, List.all_eq_true] at hv
    exact fixup_and_edit_inv app area _ (fun c hc => hv.2 c hc) (by dsimp; omega)
      (by dsimp; omega) hI
  | delete area s e =>
    exact fixup_and_edit_inv app area _ (by simp) (by dsimp; split_ifs <;> simp <;> omega)
      (by dsimp; simp) hI
  | exchange area s e => exact exchange_inv app area s e hI
  | undo area =>
    show SessionInv (app.setArea area (app.getArea area))
    rw [XOREditApp.setArea_getArea]
    exact hI
  | redo area =>
    show SessionInv (app.setArea area (app.getArea area))
    rw [XOREditApp.setArea_getArea]
    exact hI
  | toggle_pipes => exact hI
  | toggle_offsets => exact hI

theorem run_keystream (app : XOREditApp) (ops : List Op) :
    (app.run ops).keystream = app.keystream := by
  induction ops generalizing app with
  | nil => rfl
  | cons op ops ih => rw [XOREditApp.run, ih, step_keystream]

theorem run_inv (app : XOREditApp) (ops : List Op) (hv : validSeq app ops = true)
    (hI : SessionInv app) : SessionInv (app.run ops) := by
  induction ops generalizing app with
  | nil => exact hI
  | cons op ops ih =>
    simp only [validSeq, Bool.and_eq_true] at hv
    exact ih (app.step op) hv.2 (step_inv app op hv.1 hI)

theorem load_inv (c1 c2 : List Nat) (h1 : ∀ b ∈ c1, b < 256) (h2 : ∀ b ∈ c2, b < 256) :
    SessionInv (XOREditApp.load_data c1 c2) := by
  refine ⟨?_, ?_, ?_, ?_, ?_, ?_⟩
  · intro b hb
    simp only [XOREditApp.load_data, List.mem_map] at hb
    obtain ⟨p, hp, rfl⟩ := hb
    have hmem := List.of_mem_zip hp
    have hx : p.1 < 256 := h1 p.1 hmem.1
    have hy : p.2 < 256 := h2 p.2 hmem.2
    have h8 : (256 : Nat) = 2 ^ 8 := by norm_num
    rw [h8] at hx hy ⊢
    exact Nat.xor_lt_two_pow hx hy
  · show ((c1.zip c2).map _).length ≤ (List.replicate c1.length (none : Option Nat)).length
    simp [List.length_zip]
  · show ((c1.zip c2).map _).length ≤ (List.replicate c2.length (none : Option Nat)).length
    simp [List.length_zip]
  · show ((c1.zip c2).map _).length ≤ (List.replicate c1.length PLACEHOLDER).length
    simp [List.length_zip]
  · show ((c1.zip c2).map _).length ≤ (List.replicate c2.length PLACEHOLDER).length
    simp [List.length_zip]
  · intro i k a b hk hx hy
    rw [show (XOREditApp.load_data c1 c2).top_area.data
      = List.replicate c1.length (none : Option Nat) from rfl] at hx
    rw [List.getElem?_replicate] at hx
    split at hx <;> simp at hx

/-- C1: for every sequence of mirrored-edit applications (and exchanges) on a
loaded pair of byte ciphertexts, driven by in-bounds selections and
byte-valued inserted text, at every point between operations the mirror
invariant holds: for every index below the keystream length at which both
cells are Known, the two cells XOR to the keystream byte. -/
theorem C1_mirror_invariant (c1 c2 : List Nat) (ops : List Op)
    (h1 : ∀ b ∈ c1, b < 256) (h2 : ∀ b ∈ c2, b < 256)
    (hv : validSeq (XOREditApp.load_data c1 c2) ops = true) :
    Mirror ((XOREditApp.load_data c1 c2).run ops) := by
  have h := run_inv _ ops hv (load_inv c1 c2 h1 h2)
  exact h.2.2.2.2.2

/-- Witness for C1 at a concrete session: load two ciphertexts, type a guess,
exchange a selection, delete in the other area. -/
theorem C1_mirror_invariant_witness :
    Mirror ((XOREditApp.load_data [72, 101, 108] [0, 4]).run
      [Op.replace .top ['H', 'i'] 0 1, Op.exchange .top 0 2, Op.delete .bot 0 1]) :=
  C1_mirror_invariant _ _ _ (by decide) (by decide) (by decide)

/-- C9: undo and redo are no-ops: any sequence consisting only of undo and
redo operations leaves the whole application state (displayed texts, backing
data of both buffers, keystream, toggles) unchanged. -/
theorem C9_undo_redo_noop (app : XOREditApp) (ops : List Op)
    (h : ops.all Op.isUndoRedo = true) : app.run ops = app := by
  induction ops with
  | nil => rfl
  | cons op ops ih =>
    rw [List.all_cons, Bool.and_eq_true] at h
    obtain ⟨h1, h2⟩ := h
    have hstep : app.step op = app := by
      cases op with
      | undo area =>
        show app.setArea area (app.getArea area) = app
        exact XOREditApp.setArea_getArea app area
      | redo area =>
        show app.setArea area (app.getArea area) = app
        exact XOREditApp.setArea_getArea app area
      | replace area insert s e => simp [Op.isUndoRedo] at h1
      | delete area s e => simp [Op.isUndoRedo] at h1
      | exchange area s e => simp [Op.isUndoRedo] at h1
      | toggle_pipes => simp [Op.isUndoRedo] at h1
      | toggle_offsets => simp [Op.isUndoRedo] at h1
    rw [XOREditApp.run, hstep]
    exact ih h2

/-- Witness for C9: two undos and a redo on a loaded session change nothing. -/
theorem C9_undo_redo_noop_witness :
    ([Op.undo .top, Op.undo .bot, Op.redo .top].all Op.isUndoRedo = true) ∧
      (XOREditApp.load_data [1, 2] [3]).run [Op.undo .top, Op.undo .bot, Op.redo .top]
        = XOREditApp.load_data [1, 2] [3] :=
  ⟨by decide, C9_undo_redo_noop (XOREditApp.load_data [1, 2] [3])
    [Op.undo .top, Op.undo .bot, Op.redo .top] (by decide)⟩

/-- C10: the vertical-tab and form-feed bytes render as the generic
non-printable glyph (they are excluded from the printable set), not as their
literal characters; carriage return, line feed, tab and space render as four
pairwise distinct dedicated glyphs; an Unknown cell renders as the
placeholder. -/
theorem C10_render_symbol_glyphs :
    render_symbol (some 0x0B) = Char.ofNat 0x25A2 ∧
    render_symbol (some 0x0C) = Char.ofNat 0x25A2 ∧
    render_symbol (some 0x0B) ≠ Char.ofNat 0x0B ∧
    render_symbol (some 0x0C) ≠ Char.ofNat 0x0C ∧
    (0x0B : Nat) ∉ PRINTABLE_BYTES ∧
    (0x0C : Nat) ∉ PRINTABLE_BYTES ∧
    render_symbol (some 13) = Char.ofNat 0x21A9 ∧
    render_symbol (some 10) = Char.ofNat 0x21B5 ∧
    render_symbol (some 9) = Char.ofNat 0x21E5 ∧
    render_symbol (some 32) = Char.ofNat 0x2423 ∧
    [Char.ofNat 0x21A9, Char.ofNat 0x21B5, Char.ofNat 0x21E5, Char.ofNat 0x2423,
      Char.ofNat 0x25A2].Nodup ∧
    render_symbol none = PLACEHOLDER := by decide

/-- C7: the keystream is the byte-wise XOR of the two ciphertexts (zip
truncates to the shorter), has length equal to the minimum of the two
lengths, and is unchanged by every sequence of operations. -/
theorem C7_keystream_immutable (c1 c2 : List Nat) (ops : List Op) :
    ((XOREditApp.load_data c1 c2).run ops).keystream
        = (c1.zip c2).map (fun p => p.1 ^^^ p.2) ∧
      ((XOREditApp.load_data c1 c2).run ops).keystream.length
        = min c1.length c2.length ∧
      ∀ (i : Nat) (h1 : i < c1.length) (h2 : i < c2.length),
        ((XOREditApp.load_data c1 c2).run ops).keystream[i]?
          = some (c1[i] ^^^ c2[i]) := by
  have hk : ((XOREditApp.load_data c1 c2).run ops).keystream
      = (c1.zip c2).map (fun p => p.1 ^^^ p.2) := run_keystream _ ops
  refine ⟨hk, ?_, ?_⟩
  · rw [hk]
    simp [List.length_zip]
  · intro i h1 h2
    rw [hk, List.getElem?_map]
    have hz : i < (c1.zip c2).length := by
      simp only [List.length_zip, inf_eq_min]
      omega
    rw [List.getElem?_eq_getElem hz, List.getElem_zip]
    simp only [Option.map_some']

/-- Witness for C7 at a concrete pair of ciphertexts and one operation. -/
theorem C7_keystream_immutable_witness :
    ((XOREditApp.load_data [72, 101] [0, 4, 8]).run [Op.toggle_pipes]).keystream[1]?
      = some (101 ^^^ 4) :=
  (C7_keystream_immutable [72, 101] [0, 4, 8] [Op.toggle_pipes]).2.2 1 (by decide) (by decide)

theorem fixup_getArea_src (app : XOREditApp) (area : AreaId) (e : Edit) :
    (app.fixup_and_edit area e).getArea area
      = EditArea.edit { app.getArea area with data := (app.getArea area).fixup_data e }
          e.padded := by
  cases area <;> rfl

theorem C4_aux (a : EditArea) (e : Edit) (N : Nat)
    (hN : 2 ≤ N) (hp : e.text.length = 20)
    (hf : e.fromX = N - 2) (ht : e.toX = N + 18)
    (hdata : a.data.length = N) (htext : a.text.length = N) :
    (EditArea.edit { a with data := a.fixup_data e } e.padded).data.length = N ∧
    (EditArea.edit { a with data := a.fixup_data e } e.padded).text.length = N ∧
    (EditArea.edit { a with data := a.fixup_data e } e.padded).data
      = a.data.take (N - 2) ++ (e.text.map (fun c => (some c.toNat : Option Nat))).take 2 ∧
    (EditArea.edit { a with data := a.fixup_data e } e.padded).text
      = a.text.take (N - 2) ++ (clean_whitespace e.text).take 2 := by
  have hpad : (editPadding e).toNat = 0 := by
    rw [editPadding_toNat, hf, ht, hp]
    omega
  have hfd : a.fixup_data e
      = a.data.take (N - 2) ++ (e.text.map (fun c => (some c.toNat : Option Nat))).take 2 := by
    rw [EditArea.fixup_data, hpad, hf, ht]
    simp only [List.replicate_zero, List.append_nil]
    rw [List.drop_eq_nil_of_le (show a.data.length ≤ N + 18 by omega), List.append_nil, hdata]
    rw [List.take_append_eq_append_take, List.take_take,
      show min N (N - 2) = N - 2 by omega,
      show N - (List.take (N - 2) a.data).length = 2 by
        simp only [List.length_take, hdata]
        omega]
  have hptext : e.padded.text = clean_whitespace e.text := by
    show clean_whitespace (e.text ++ List.replicate (editPadding e).toNat PLACEHOLDER)
      = clean_whitespace e.text
    rw [hpad]
    simp
  have hcwlen : (clean_whitespace e.text).length = 20 := by
    simp [clean_whitespace, hp]
  have htext2 : (EditArea.edit { a with data := a.fixup_data e } e.padded).text
      = a.text.take (N - 2) ++ (clean_whitespace e.text).take 2 := by
    simp only [EditArea.edit, padded_fromX, padded_toX, hptext, fixup_data_length, hdata,
      hf, ht, hcwlen]
    rw [if_pos (by omega : N < N + 18)]
    rw [if_pos (by omega : N < N - 2 + 20)]
    rw [show ((N : Int) - ((N - 2 : Nat) : Int)) = (2 : Int) by omega]
    rw [show pyTake (clean_whitespace e.text) 2 = (clean_whitespace e.text).take 2 by
      simp [pyTake]]
    rw [replace_range, if_neg (by omega : ¬ (N < N - 2))]
    rw [List.drop_eq_nil_of_le (show a.text.length ≤ N by omega), List.append_nil]
  refine ⟨?_, ?_, ?_, ?_⟩
  · rw [EditArea.edit_data]
    show (a.fixup_data e).length = N
    rw [fixup_data_length, hdata]
  · rw [htext2]
    simp only [List.length_append, List.length_take, hcwlen, htext]
    omega
  · rw [EditArea.edit_data]
    exact hfd
  · exact htext2

/-- C4: replacing the range from N-2 to N+10 with a 20-character payload on a
buffer of length N keeps both the backing data and the displayed text at
length N; only the two cells below N are written, the rest of the payload is
silently truncated without an error. -/
theorem C4_clamped_replace (app : XOREditApp) (area : AreaId) (payload : List Char) (N : Nat)
    (hN : 2 ≤ N) (hp : payload.length = 20)
    (hdata : (app.getArea area).data.length = N)
    (htext : (app.getArea area).text.length = N) :
    ((app.replaceOp area payload (N - 2) (N + 10)).getArea area).data.length = N ∧
    ((app.replaceOp area payload (N - 2) (N + 10)).getArea area).text.length = N ∧
    ((app.replaceOp area payload (N - 2) (N + 10)).getArea area).data
      = (app.getArea area).data.take (N - 2)
        ++ (payload.map (fun c => (some c.toNat : Option Nat))).take 2 ∧
    ((app.replaceOp area payload (N - 2) (N + 10)).getArea area).text
      = (app.getArea area).text.take (N - 2) ++ (clean_whitespace payload).take 2 := by
  have harith : (N - 2) + payload.length + ((N + 10) - (N - 2) - payload.length) = N + 18 := by
    omega
  have hstep : app.replaceOp area payload (N - 2) (N + 10)
      = app.fixup_and_edit area { text := payload, fromX := N - 2, toX := N + 18 } := by
    simp only [XOREditApp.replaceOp]
    rw [if_neg (by omega : ¬ (N + 10 < N - 2))]
    dsimp only
    rw [harith]
  rw [hstep, fixup_getArea_src]
  exact C4_aux (app.getArea area) { text := payload, fromX := N - 2, toX := N + 18 } N
    hN hp rfl rfl hdata htext

/-- Witness for C4: a concrete length-5 session. -/
theorem C4_clamped_replace_witness :
    (((XOREditApp.load_data [0, 0, 0, 0, 0] [0, 0, 0, 0, 0]).replaceOp .top
        (List.replicate 20 'a') 3 15).getArea .top).data.length = 5 ∧
    (((XOREditApp.load_data [0, 0, 0, 0, 0] [0, 0, 0, 0, 0]).replaceOp .top
        (List.replicate 20 'a') 3 15).getArea .top).text.length = 5 ∧
    (((XOREditApp.load_data [0, 0, 0, 0, 0] [0, 0, 0, 0, 0]).replaceOp .top
        (List.replicate 20 'a') 3 15).getArea .top).data
      = ((XOREditApp.load_data [0, 0, 0, 0, 0] [0, 0, 0, 0, 0]).getArea .top).data.take 3
        ++ ((List.replicate 20 'a').map (fun c => (some c.toNat : Option Nat))).take 2 ∧
    (((XOREditApp.load_data [0, 0, 0, 0, 0] [0, 0, 0, 0, 0]).replaceOp .top
        (List.replicate 20 'a') 3 15).getArea .top).text
      = ((XOREditApp.load_data [0, 0, 0, 0, 0] [0, 0, 0, 0, 0]).getArea .top).text.take 3
        ++ (clean_whitespace (List.replicate 20 'a')).take 2 :=
  C4_clamped_replace (XOREditApp.load_data [0, 0, 0, 0, 0] [0, 0, 0, 0, 0]) .top
    (List.replicate 20 'a') 5 (by decide) (by decide) (by decide) (by decide)

/-- Counterexample for C6 as stated: with a length-1 top buffer focused and a
length-2 bottom buffer, a bare cursor at offset 1 yields an effective end of
2, which exceeds the length of the shorter buffer (1); the exchange then
grows the top backing data to length 2. -/
theorem C6_counterexample :
    ((XOREditApp.load_data [0] [0, 0]).exchangeRange .top 1 1).2 = 2 ∧
    min ((XOREditApp.load_data [0] [0, 0]).getArea .top).text.length
        ((XOREditApp.load_data [0] [0, 0]).getArea .bot).text.length = 1 ∧
    (((XOREditApp.load_data [0] [0, 0]).action_exchange_selection .top 1 1).getArea
        .top).data.length = 2 := by
  decide

/-- C6 (amended): the effective exchange end is clamped to the destination
(non-focused) buffer's text length only; since the selection lies within the
source buffer, a non-empty selection additionally keeps the effective end
within the shorter of the two buffers.  Only bare-cursor widening can exceed
the shorter (source) buffer. -/
theorem C6_exchange_end_clamped (app : XOREditApp) (source : AreaId) (s0 e0 : Nat)
    (h1 : s0 ≤ (app.getArea source).text.length)
    (h2 : e0 ≤ (app.getArea source).text.length) :
    (app.exchangeRange source s0 e0).2 ≤ (app.getArea source.other).text.length ∧
    (s0 ≠ e0 →
      (app.exchangeRange source s0 e0).2
        ≤ min (app.getArea source).text.length (app.getArea source.other).text.length) := by
  refine ⟨exchangeRange_le app source s0 e0, ?_⟩
  intro hne
  unfold XOREditApp.exchangeRange
  split_ifs <;> simp <;> split_ifs <;> omega

/-- Witness for C6 (amended) at a concrete non-empty selection. -/
theorem C6_exchange_end_clamped_witness :
    ((XOREditApp.load_data [0, 0] [0]).exchangeRange .top 0 2).2
        ≤ ((XOREditApp.load_data [0, 0] [0]).getArea AreaId.top.other).text.length ∧
      ((0 : Nat) ≠ 2 →
        ((XOREditApp.load_data [0, 0] [0]).exchangeRange .top 0 2).2
          ≤ min ((XOREditApp.load_data [0, 0] [0]).getArea .top).text.length
              ((XOREditApp.load_data [0, 0] [0]).getArea AreaId.top.other).text.length) :=
  C6_exchange_end_clamped (XOREditApp.load_data [0, 0] [0]) .top 0 2 (by decide) (by decide)

theorem ljust5_len (n : Nat) : 5 ≤ (ljust5 n).length := by
  simp only [ljust5, List.length_append, List.length_replicate]
  omega

theorem foldl_len_mono (f : List Char → Nat → List Char)
    (hf : ∀ acc j, acc.length ≤ (f acc j).length) (l : List Nat) (acc : List Char) :
    acc.length ≤ (l.foldl f acc).length := by
  induction l generalizing acc with
  | nil => exact le_refl _
  | cons j l ih => exact le_trans (hf acc j) (ih (f acc j))

theorem offsetsLine_len_pos (i w : Nat) (hw : 6 ≤ w) : 0 < (offsetsLine i w).length := by
  unfold offsetsLine
  have hf : ∀ (c : Nat) (acc : List Char) (j : Nat),
      acc.length ≤ ((fun acc j => if acc.length < w - 5
        then acc ++ ljust5 (c + i + j)
        else acc) acc j).length := by
    intro c acc j
    dsimp only
    split_ifs <;> simp
  rcases Nat.eq_zero_or_pos ((OFFSET_DELTA - i % OFFSET_DELTA) % OFFSET_DELTA) with hp | hp
  · rw [hp]
    have hn : (w + OFFSET_DELTA - 1) / OFFSET_DELTA
        = ((w + OFFSET_DELTA - 1) / OFFSET_DELTA - 1) + 1 := by
      have h1 : 1 ≤ (w + OFFSET_DELTA - 1) / OFFSET_DELTA := by
        rw [Nat.le_div_iff_mul_le (by simp [OFFSET_DELTA])]
        simp only [OFFSET_DELTA]
        omega
      omega
    rw [pyRangeStep, if_neg (by simp [OFFSET_DELTA]), hn, List.range_succ_eq_map]
    simp only [List.map_cons, List.foldl_cons, List.replicate_zero]
    refine lt_of_lt_of_le ?_ (foldl_len_mono _ (hf 0) _ _)
    dsimp only
    rw [if_pos (by simp only [List.length_nil, OFFSET_DELTA]; omega)]
    have h5 := ljust5_len (0 + i + 0 * OFFSET_DELTA)
    simp only [List.nil_append]
    omega
  · refine lt_of_lt_of_le ?_
      (foldl_len_mono _ (hf ((OFFSET_DELTA - i % OFFSET_DELTA) % OFFSET_DELTA)) _ _)
    simp only [List.length_replicate]
    exact hp

theorem foldl_append_eq_flatten {β : Type} (f : Nat → List β) (l : List Nat) (init : List β) :
    l.foldl (fun acc i => acc ++ f i) init = init ++ (l.map f).flatten := by
  induction l generalizing init with
  | nil => simp
  | cons j l ih =>
    simp only [List.foldl_cons, List.map_cons, List.flatten_cons, ih, List.append_assoc]

theorem windowLines_count (app : XOREditApp) (w i : Nat) (hw : 6 ≤ w)
    (hit : i < app.top_area.text.length) (hib : i < app.bot_area.text.length)
    (hik : i < app.keystream.length) :
    List.count ([] : List Char) (app.windowLines w i) = 2 := by
  have hoff : offsetsLine i w ≠ [] := by
    have := offsetsLine_len_pos i w hw
    intro h
    rw [h] at this
    simp at this
  have htop : (app.top_area.text.drop i).take w ≠ [] := by
    have hl : 0 < ((app.top_area.text.drop i).take w).length := by
      simp only [List.length_take, List.length_drop]
      omega
    intro h
    rw [h] at hl
    simp at hl
  have hbot : (app.bot_area.text.drop i).take w ≠ [] := by
    have hl : 0 < ((app.bot_area.text.drop i).take w).length := by
      simp only [List.length_take, List.length_drop]
      omega
    intro h
    rw [h] at hl
    simp at hl
  have hpip : pipesLine app.keystream i w ≠ [] := by
    have hl : 0 < (pipesLine app.keystream i w).length := by
      simp only [pipesLine, List.length_map, List.length_take, List.length_drop]
      omega
    intro h
    rw [h] at hl
    simp at hl
  unfold XOREditApp.windowLines
  by_cases hso : app.show_offsets <;> by_cases hsp : app.show_pipes <;>
    simp [hso, hsp, List.count_append, List.count_cons, hoff, htop, hbot, hpip]

theorem sum_map_const {α : Type} (l : List α) (f : α → Nat) (c : Nat)
    (h : ∀ x ∈ l, f x = c) : (l.map f).sum = c * l.length := by
  induction l with
  | nil => simp
  | cons x l ih =>
    simp only [List.map_cons, List.sum_cons, List.length_cons]
    rw [h x (List.mem_cons_self x l), ih (fun y hy => h y (List.mem_cons_of_mem x hy))]
    ring

theorem pyRangeStep_mem_lt (stop w j : Nat) (hw : 0 < w) (hj : j ∈ pyRangeStep stop w) :
    j < stop := by
  rw [pyRangeStep, if_neg (by omega)] at hj
  simp only [List.mem_map, List.mem_range] at hj
  obtain ⟨k, hk, rfl⟩ := hj
  have h1 : k + 1 ≤ (stop + w - 1) / w := hk
  rw [Nat.le_div_iff_mul_le hw] at h1
  have h2 : (k + 1) * w = k * w + w := by ring
  omega

/-- Counterexample for C8 as stated: with both toggles off and a single
window, the rendered output contains two blank separator lines after the
(single) window group, not one. -/
theorem C8_counterexample :
    ((XOREditApp.load_data [65] [66]).toggle_pipes.toggle_offsets).populate 4
        = [['_'], ['_'], [], []] ∧
      List.count ([] : List Char)
        (((XOREditApp.load_data [65] [66]).toggle_pipes.toggle_offsets).populate 4) = 2 := by
  decide

/-- C8 (amended): the populate loop appends exactly two blank separator
lines after each window group: when the two displayed texts and the
keystream share a positive length and the usable width is at least 6 (so
that every group line is non-blank), the number of blank lines in the
rendered output is exactly twice the number of window groups. -/
theorem C8_two_separators_per_group (app : XOREditApp) (w : Nat) (hw : 6 ≤ w)
    (ht : app.top_area.text.length = app.keystream.length)
    (hb : app.bot_area.text.length = app.keystream.length) :
    List.count ([] : List Char) (app.populate w)
      = 2 * ((app.keystream.length + w - 1) / w) := by
  unfold XOREditApp.populate
  rw [foldl_append_eq_flatten, List.nil_append, List.count_flatten, List.map_map]
  have hmax : max app.top_area.text.length app.bot_area.text.length
      = app.keystream.length := by
    rw [ht, hb, Nat.max_self]
  rw [hmax]
  have hcount : ∀ j ∈ pyRangeStep app.keystream.length w,
      (List.count ([] : List Char) ∘ app.windowLines w) j = 2 := by
    intro j hj
    have hjlt : j < app.keystream.length := pyRangeStep_mem_lt _ w j (by omega) hj
    exact windowLines_count app w j hw (by omega) (by omega) hjlt
  rw [sum_map_const _ _ 2 hcount]
  have hlen : (pyRangeStep app.keystream.length w).length
      = (app.keystream.length + w - 1) / w := by
    rw [pyRangeStep, if_neg (by omega)]
    simp
  rw [hlen]

/-- Witness for C8 (amended) at a concrete session of length 3 and width 6. -/
theorem C8_two_separators_per_group_witness :
    List.count ([] : List Char) ((XOREditApp.load_data [65, 66, 67] [68, 69, 70]).populate 6)
      = 2 * (((XOREditApp.load_data [65, 66, 67] [68, 69, 70]).keystream.length + 6 - 1) / 6) :=
  C8_two_separators_per_group (XOREditApp.load_data [65, 66, 67] [68, 69, 70]) 6
    (by decide) (by decide) (by decide)

theorem sfixup_lens (src dst : EditArea) (e : Edit) (ks : List Nat) (N : Nat)
    (h1 : src.data.length = N) (h2 : src.text.length = N)
    (h3 : dst.data.length = N) (h4 : dst.text.length = N)
    (hfx : e.fromX ≤ e.toX) (hf : e.fromX ≤ N)
    (hlen : e.text.length ≤ e.toX - e.fromX) :
    (EditArea.edit { src with data := src.fixup_data e } e.padded).data.length = N ∧
    (EditArea.edit { src with data := src.fixup_data e } e.padded).text.length = N ∧
    (dst.fixup_and_edit_noemit
      { text := (e.text.zip ((ks.drop e.fromX).take (e.toX - e.fromX))).map
          (fun p => Char.ofNat (p.1.toNat ^^^ p.2)),
        fromX := e.fromX, toX := e.toX }).data.length = N ∧
    (dst.fixup_and_edit_noemit
      { text := (e.text.zip ((ks.drop e.fromX).take (e.toX - e.fromX))).map
          (fun p => Char.ofNat (p.1.toNat ^^^ p.2)),
        fromX := e.fromX, toX := e.toX }).text.length = N := by
  set e2 : Edit :=
    { text := (e.text.zip ((ks.drop e.fromX).take (e.toX - e.fromX))).map
        (fun p => Char.ofNat (p.1.toNat ^^^ p.2)),
      fromX := e.fromX, toX := e.toX } with he2
  have he2len : e2.text.length ≤ e.toX - e.fromX := by
    rw [he2]
    simp only [List.length_map, List.length_zip, List.length_take, List.length_drop,
      inf_eq_min]
    omega
  have he2from : e2.fromX = e.fromX := rfl
  have he2to : e2.toX = e.toX := rfl
  refine ⟨?_, ?_, ?_, ?_⟩
  · rw [EditArea.edit_data]
    show (src.fixup_data e).length = N
    rw [fixup_data_length, h1]
  · have := edit_text_len_exact { src with data := src.fixup_data e } e.padded
      (by show src.text.length = (src.fixup_data e).length
          rw [fixup_data_length, h1, h2])
      (by rw [padded_fromX, padded_toX]; exact hfx)
      (by show e.padded.fromX ≤ (src.fixup_data e).length
          rw [padded_fromX, fixup_data_length, h1]
          exact hf)
      (by rw [padded_text_length, padded_fromX, padded_toX]; omega)
    rw [this]
    show (src.fixup_data e).length = N
    rw [fixup_data_length, h1]
  · rw [noemit_data, fixup_data_length, h3]
  · show ((EditArea.edit { dst with data := dst.fixup_data e2 } e2.padded).text).length = N
    have := edit_text_len_exact { dst with data := dst.fixup_data e2 } e2.padded
      (by show dst.text.length = (dst.fixup_data e2).length
          rw [fixup_data_length, h3, h4])
      (by rw [padded_fromX, padded_toX, he2from, he2to]; exact hfx)
      (by show e2.padded.fromX ≤ (dst.fixup_data e2).length
          rw [padded_fromX, he2from, fixup_data_length, h3]
          exact hf)
      (by rw [padded_text_length, padded_fromX, padded_toX, he2from, he2to]; omega)
    rw [this]
    show (dst.fixup_data e2).length = N
    rw [fixup_data_length, h3]

theorem sexchange_lens (src dst : EditArea) (start stop N : Nat)
    (h1 : src.data.length = N) (h2 : src.text.length = N)
    (h3 : dst.data.length = N) (h4 : dst.text.length = N)
    (hstart : start ≤ N) (hstop : stop ≤ N) (hss : start ≤ stop) :
    ((src.edit { text := get_text_range dst.text start stop, fromX := start, toX := stop }).data.take start
      ++ ((dst.edit { text := get_text_range src.text start stop, fromX := start, toX := stop }).data.drop start).take (stop - start)
      ++ (src.edit { text := get_text_range dst.text start stop, fromX := start, toX := stop }).data.drop stop).length = N ∧
    (src.edit { text := get_text_range dst.text start stop, fromX := start, toX := stop }).text.length = N ∧
    ((dst.edit { text := get_text_range src.text start stop, fromX := start, toX := stop }).data.take start
      ++ ((src.edit { text := get_text_range dst.text start stop, fromX := start, toX := stop }).data.drop start).take (stop - start)
      ++ (dst.edit { text := get_text_range src.text start stop, fromX := start, toX := stop }).data.drop stop).length = N ∧
    (dst.edit { text := get_text_range src.text start stop, fromX := start, toX := stop }).text.length = N := by
  have hgd : (get_text_range dst.text start stop).length = stop - start := by
    rw [get_text_range, if_neg (by omega)]
    simp only [List.length_take, List.length_drop, h4]
    omega
  have hgs : (get_text_range src.text start stop).length = stop - start := by
    rw [get_text_range, if_neg (by omega)]
    simp only [List.length_take, List.length_drop, h2]
    omega
  refine ⟨?_, ?_, ?_, ?_⟩
  · simp only [EditArea.edit_data, List.length_append, List.length_take, List.length_drop,
      h1, h3]
    omega
  · have := edit_text_len_exact src
      { text := get_text_range dst.text start stop, fromX := start, toX := stop }
      (by rw [h1, h2]) (by dsimp only; omega) (by dsimp only; omega)
      (by dsimp only; rw [hgd])
    rw [this, h1]
  · simp only [EditArea.edit_data, List.length_append, List.length_take, List.length_drop,
      h1, h3]
    omega
  · have := edit_text_len_exact dst
      { text := get_text_range src.text start stop, fromX := start, toX := stop }
      (by rw [h3, h4]) (by dsimp only; omega) (by dsimp only; rw [h3]; omega)
      (by dsimp only; rw [hgs])
    rw [this, h3]

theorem step_lens (app : XOREditApp) (op : Op) (N : Nat) (hv : op.valid app = true)
    (h1 : app.top_area.data.length = N) (h2 : app.top_area.text.length = N)
    (h3 : app.bot_area.data.length = N) (h4 : app.bot_area.text.length = N) :
    (app.step op).top_area.data.length = N ∧ (app.step op).top_area.text.length = N ∧
    (app.step op).bot_area.data.length = N ∧ (app.step op).bot_area.text.length = N := by
  cases op with
  | replace area insert s0 e0 =>
    simp only [Op.valid, Bool.and_eq_true, decide_eq_true_eq, List.all_eq_true] at hv
    cases area
    · have h := sfixup_lens app.top_area app.bot_area
        { text := insert, fromX := (if e0 < s0 then (e0, s0) else (s0, e0)).1,
          toX := (if e0 < s0 then (e0, s0) else (s0, e0)).1 + insert.length
            + ((if e0 < s0 then (e0, s0) else (s0, e0)).2
              - (if e0 < s0 then (e0, s0) else (s0, e0)).1 - insert.length) }
        app.keystream N h1 h2 h3 h4 (by dsimp only; omega)
        (by dsimp only; split_ifs <;> simp only [XOREditApp.getArea] at hv <;> omega)
        (by dsimp only; omega)
      exact ⟨h.1, h.2.1, h.2.2.1, h.2.2.2⟩
    · have h := sfixup_lens app.bot_area app.top_area
        { text := insert, fromX := (if e0 < s0 then (e0, s0) else (s0, e0)).1,
          toX := (if e0 < s0 then (e0, s0) else (s0, e0)).1 + insert.length
            + ((if e0 < s0 then (e0, s0) else (s0, e0)).2
              - (if e0 < s0 then (e0, s0) else (s0, e0)).1 - insert.length) }
        app.keystream N h3 h4 h1 h2 (by dsimp only; omega)
        (by dsimp only; split_ifs <;> simp only [XOREditApp.getArea] at hv <;> omega)
        (by dsimp only; omega)
      exact ⟨h.2.2.1, h.2.2.2, h.1, h.2.1⟩
  | delete area s0 e0 =>
    simp only [Op.valid, Bool.and_eq_true, decide_eq_true_eq] at hv
    cases area
    · have h := sfixup_lens app.top_area app.bot_area
        { text := [], fromX := (if e0 < s0 then (e0, s0) else (s0, e0)).1,
          toX := (if e0 < s0 then (e0, s0) else (s0, e0)).2 }
        app.keystream N h1 h2 h3 h4 (by dsimp only; split_ifs <;> simp <;> omega)
        (by dsimp only; split_ifs <;> simp only [XOREditApp.getArea] at hv <;> omega)
        (by simp)
      exact ⟨h.1, h.2.1, h.2.2.1, h.2.2.2⟩
    · have h := sfixup_lens app.bot_area app.top_area
        { text := [], fromX := (if e0 < s0 then (e0, s0) else (s0, e0)).1,
          toX := (if e0 < s0 then (e0, s0) else (s0, e0)).2 }
        app.keystream N h3 h4 h1 h2 (by dsimp only; split_ifs <;> simp <;> omega)
        (by dsimp only; split_ifs <;> simp only [XOREditApp.getArea] at hv <;> omega)
        (by simp)
      exact ⟨h.2.2.1, h.2.2.2, h.1, h.2.1⟩
  | exchange area s0 e0 =>
    simp only [Op.valid, Bool.and_eq_true, decide_eq_true_eq] at hv
    cases area
    · have h := sexchange_lens app.top_area app.bot_area
        (app.exchangeRange .top s0 e0).1 (app.exchangeRange .top s0 e0).2 N h1 h2 h3 h4
        (by unfold XOREditApp.exchangeRange
            simp only [AreaId.other, XOREditApp.getArea]
            split_ifs <;> simp only [XOREditApp.getArea] at hv <;> omega)
        (le_trans (exchangeRange_le app .top s0 e0) (le_of_eq h4))
        (by unfold XOREditApp.exchangeRange
            simp only [AreaId.other, XOREditApp.getArea]
            split_ifs <;> simp only [XOREditApp.getArea] at hv <;> simp <;> omega)
      exact ⟨h.1, h.2.1, h.2.2.1, h.2.2.2⟩
    · have h := sexchange_lens app.bot_area app.top_area
        (app.exchangeRange .bot s0 e0).1 (app.exchangeRange .bot s0 e0).2 N h3 h4 h1 h2
        (by unfold XOREditApp.exchangeRange
            simp only [AreaId.other, XOREditApp.getArea]
            split_ifs <;> simp only [XOREditApp.getArea] at hv <;> omega)
        (le_trans (exchangeRange_le app .bot s0 e0) (le_of_eq h2))
        (by unfold XOREditApp.exchangeRange
            simp only [AreaId.other, XOREditApp.getArea]
            split_ifs <;> simp only [XOREditApp.getArea] at hv <;> simp <;> omega)
      exact ⟨h.2.2.1, h.2.2.2, h.1, h.2.1⟩
  | undo area =>
    have : app.step (Op.undo area) = app := by
      show app.setArea area (app.getArea area) = app
      exact XOREditApp.setArea_getArea app area
    rw [this]
    exact ⟨h1, h2, h3, h4⟩
  | redo area =>
    have : app.step (Op.redo area) = app := by
      show app.setArea area (app.getArea area) = app
      exact XOREditApp.setArea_getArea app area
    rw [this]
    exact ⟨h1, h2, h3, h4⟩
  | toggle_pipes => exact ⟨h1, h2, h3, h4⟩
  | toggle_offsets => exact ⟨h1, h2, h3, h4⟩

theorem run_lens (app : XOREditApp) (ops : List Op) (N : Nat)
    (hv : validSeq app ops = true)
    (h1 : app.top_area.data.length = N) (h2 : app.top_area.text.length = N)
    (h3 : app.bot_area.data.length = N) (h4 : app.bot_area.text.length = N) :
    (app.run ops).top_area.data.length = N ∧ (app.run ops).top_area.text.length = N ∧
    (app.run ops).bot_area.data.length = N ∧ (app.run ops).bot_area.text.length = N := by
  induction ops generalizing app with
  | nil => exact ⟨h1, h2, h3, h4⟩
  | cons op ops ih =>
    simp only [validSeq, Bool.and_eq_true] at hv
    have h := step_lens app op N hv.1 h1 h2 h3 h4
    exact ih (app.step op) hv.2 h.1 h.2.1 h.2.2.1 h.2.2.2

/-- C2 (amended): when the two ciphertexts have equal length N, every
sequence of edit, delete, replace and exchange operations driven by
in-bounds selections keeps both buffers' backing data and displayed text at
length N for the whole session. -/
theorem C2_length_invariant (c1 c2 : List Nat) (ops : List Op) (N : Nat)
    (h1 : c1.length = N) (h2 : c2.length = N)
    (hv : validSeq (XOREditApp.load_data c1 c2) ops = true) :
    ((XOREditApp.load_data c1 c2).run ops).top_area.data.length = N ∧
    ((XOREditApp.load_data c1 c2).run ops).top_area.text.length = N ∧
    ((XOREditApp.load_data c1 c2).run ops).bot_area.data.length = N ∧
    ((XOREditApp.load_data c1 c2).run ops).bot_area.text.length = N := by
  refine run_lens _ ops N hv ?_ ?_ ?_ ?_ <;>
    simp [XOREditApp.load_data, EditArea.init, h1, h2]

/-- Witness for C2 (amended): an equal-length session with one replace and
one exchange. -/
theorem C2_length_invariant_witness :
    ((XOREditApp.load_data [1, 2, 3] [4, 5, 6]).run
        [Op.replace .top ['a', 'b'] 1 3, Op.exchange .bot 0 2]).top_area.data.length = 3 ∧
      ((XOREditApp.load_data [1, 2, 3] [4, 5, 6]).run
        [Op.replace .top ['a', 'b'] 1 3, Op.exchange .bot 0 2]).top_area.text.length = 3 ∧
      ((XOREditApp.load_data [1, 2, 3] [4, 5, 6]).run
        [Op.replace .top ['a', 'b'] 1 3, Op.exchange .bot 0 2]).bot_area.data.length = 3 ∧
      ((XOREditApp.load_data [1, 2, 3] [4, 5, 6]).run
        [Op.replace .top ['a', 'b'] 1 3, Op.exchange .bot 0 2]).bot_area.text.length = 3 :=
  C2_length_invariant [1, 2, 3] [4, 5, 6] [Op.replace .top ['a', 'b'] 1 3, Op.exchange .bot 0 2]
    3 (by decide) (by decide) (by decide)

/-- Counterexample for C2 as stated: with ciphertexts of unequal lengths 5
and 2, a valid replace on the top buffer reaching past the bottom buffer
grows the bottom displayed text from 2 to 3 characters. -/
theorem C2_counterexample :
    Op.valid (XOREditApp.load_data [65, 65, 65, 65, 65] [66, 66])
        (Op.replace .top ['x', 'y'] 3 5) = true ∧
      (XOREditApp.load_data [65, 65, 65, 65, 65] [66, 66]).bot_area.text.length = 2 ∧
      ((XOREditApp.load_data [65, 65, 65, 65, 65] [66, 66]).step
        (Op.replace .top ['x', 'y'] 3 5)).bot_area.text.length = 3 := by
  decide

theorem EditArea.ext2 (a b : EditArea) (hd : a.data = b.data) (ht : a.text = b.text) :
    a = b := by
  cases a
  cases b
  simp only [EditArea.mk.injEq]
  exact ⟨hd, ht⟩

theorem XOREditApp.ext5 (a b : XOREditApp) (h1 : a.top_area = b.top_area)
    (h2 : a.bot_area = b.bot_area) (h3 : a.keystream = b.keystream)
    (h4 : a.show_pipes = b.show_pipes) (h5 : a.show_offsets = b.show_offsets) : a = b := by
  cases a
  cases b
  simp only [XOREditApp.mk.injEq]
  exact ⟨h1, h2, h3, h4, h5⟩

theorem swap_swap {α : Type} (x y : List α) (s t : Nat) (hst : s ≤ t)
    (hx : t ≤ x.length) (hy : t ≤ y.length) :
    (x.take s ++ (y.drop s).take (t - s) ++ x.drop t).take s
      ++ (((y.take s ++ (x.drop s).take (t - s) ++ y.drop t)).drop s).take (t - s)
      ++ (x.take s ++ (y.drop s).take (t - s) ++ x.drop t).drop t
    = x := by
  have hxs : (x.take s).length = s := by
    simp only [List.length_take]
    omega
  have hys : (y.take s).length = s := by
    simp only [List.length_take]
    omega
  have hseg : ((y.drop s).take (t - s)).length = t - s := by
    simp only [List.length_take, List.length_drop]
    omega
  have hsegx : ((x.drop s).take (t - s)).length = t - s := by
    simp only [List.length_take, List.length_drop]
    omega
  have hAseg : (x.take s ++ (y.drop s).take (t - s)).length = t := by
    simp only [List.length_append, hxs, hseg]
    omega
  have hBseg : (y.take s ++ (x.drop s).take (t - s)).length = t := by
    simp only [List.length_append, hys, hsegx]
    omega
  have h1 : (x.take s ++ (y.drop s).take (t - s) ++ x.drop t).take s = x.take s := by
    rw [List.take_append_eq_append_take, List.take_append_eq_append_take, List.take_take]
    rw [show min s s = s from by omega, hxs, Nat.sub_self, List.take_zero, List.append_nil]
    rw [hAseg, show s - t = 0 from by omega, List.take_zero, List.append_nil]
  have h2 : (x.take s ++ (y.drop s).take (t - s) ++ x.drop t).drop t = x.drop t := by
    rw [List.drop_append_eq_append_drop]
    rw [List.drop_eq_nil_of_le (le_of_eq hAseg), hAseg, Nat.sub_self, List.drop_zero,
      List.nil_append]
  have h3 : (((y.take s ++ (x.drop s).take (t - s) ++ y.drop t)).drop s).take (t - s)
      = (x.drop s).take (t - s) := by
    rw [List.drop_append_eq_append_drop, List.drop_append_eq_append_drop]
    rw [List.drop_eq_nil_of_le (le_of_eq hys), hys, Nat.sub_self, List.drop_zero,
      List.nil_append, hBseg]
    rw [show s - t = 0 from by omega, List.drop_zero]
    rw [List.take_append_eq_append_take, List.take_take]
    rw [show min (t - s) (t - s) = t - s from by omega, hsegx, Nat.sub_self, List.take_zero,
      List.append_nil]
  rw [h1, h2, h3]
  have h4 : (x.drop s).take (t - s) ++ x.drop t = x.drop s := by
    have : x.drop t = (x.drop s).drop (t - s) := by
      rw [List.drop_drop]
      congr 1
      omega
    rw [this, List.take_append_drop]
  rw [List.append_assoc, h4, List.take_append_drop]

theorem get_text_range_of_le (t : List Char) (s e : Nat) (h : s ≤ e) :
    get_text_range t s e = (t.drop s).take (e - s) := by
  rw [get_text_range, if_neg (by omega)]

theorem edit_text_splice (a : EditArea) (txt : List Char) (s t : Nat)
    (hst : s ≤ t) (ht : t ≤ a.data.length) (hlen : txt.length = t - s) :
    (a.edit { text := txt, fromX := s, toX := t }).text
      = a.text.take s ++ txt ++ a.text.drop t := by
  simp only [EditArea.edit]
  rw [if_neg (by omega), if_neg (by omega)]
  rw [replace_range, if_neg (by omega)]

theorem exchange_src_area (app : XOREditApp) (source : AreaId) (s0 e0 : Nat) :
    (app.action_exchange_selection source s0 e0).getArea source
      = { data := (app.getArea source).data.take (app.exchangeRange source s0 e0).1
            ++ ((app.getArea source.other).data.drop (app.exchangeRange source s0 e0).1).take
                ((app.exchangeRange source s0 e0).2 - (app.exchangeRange source s0 e0).1)
            ++ (app.getArea source).data.drop (app.exchangeRange source s0 e0).2,
          text := ((app.getArea source).edit
            { text := get_text_range (app.getArea source.other).text
                (app.exchangeRange source s0 e0).1 (app.exchangeRange source s0 e0).2,
              fromX := (app.exchangeRange source s0 e0).1,
              toX := (app.exchangeRange source s0 e0).2 }).text } := by
  cases source <;> rfl

theorem exchange_dst_area (app : XOREditApp) (source : AreaId) (s0 e0 : Nat) :
    (app.action_exchange_selection source s0 e0).getArea source.other
      = { data := (app.getArea source.other).data.take (app.exchangeRange source s0 e0).1
            ++ ((app.getArea source).data.drop (app.exchangeRange source s0 e0).1).take
                ((app.exchangeRange source s0 e0).2 - (app.exchangeRange source s0 e0).1)
            ++ (app.getArea source.other).data.drop (app.exchangeRange source s0 e0).2,
          text := ((app.getArea source.other).edit
            { text := get_text_range (app.getArea source).text
                (app.exchangeRange source s0 e0).1 (app.exchangeRange source s0 e0).2,
              fromX := (app.exchangeRange source s0 e0).1,
              toX := (app.exchangeRange source s0 e0).2 }).text } := by
  cases source <;> rfl

theorem exchange_keystream (app : XOREditApp) (source : AreaId) (s0 e0 : Nat) :
    (app.action_exchange_selection source s0 e0).keystream = app.keystream := by
  cases source <;> rfl

theorem exchange_show_pipes (app : XOREditApp) (source : AreaId) (s0 e0 : Nat) :
    (app.action_exchange_selection source s0 e0).show_pipes = app.show_pipes := by
  cases source <;> rfl

theorem exchange_show_offsets (app : XOREditApp) (source : AreaId) (s0 e0 : Nat) :
    (app.action_exchange_selection source s0 e0).show_offsets = app.show_offsets := by
  cases source <;> rfl

theorem exchangeRange_congr (app app2 : XOREditApp) (source : AreaId) (s0 e0 : Nat)
    (h : (app2.getArea source.other).text.length = (app.getArea source.other).text.length) :
    app2.exchangeRange source s0 e0 = app.exchangeRange source s0 e0 := by
  simp only [XOREditApp.exchangeRange]
  rw [h]

theorem XOREditApp.ext_areas (a b : XOREditApp) (source : AreaId)
    (h1 : a.getArea source = b.getArea source)
    (h2 : a.getArea source.other = b.getArea source.other)
    (h3 : a.keystream = b.keystream) (h4 : a.show_pipes = b.show_pipes)
    (h5 : a.show_offsets = b.show_offsets) : a = b := by
  cases source
  · exact XOREditApp.ext5 a b h1 h2 h3 h4 h5
  · exact XOREditApp.ext5 a b h2 h1 h3 h4 h5

/-- C5 (amended): when both buffers' backing data and displayed texts share
one common length N and the selection lies within the buffer, performing the
exchange twice with the same selection restores the entire application state. -/
theorem C5_exchange_involution (app : XOREditApp) (source : AreaId) (s0 e0 N : Nat)
    (hsd : (app.getArea source).data.length = N) (hst : (app.getArea source).text.length = N)
    (hdd : (app.getArea source.other).data.length = N)
    (hdt : (app.getArea source.other).text.length = N)
    (hs : s0 ≤ N) (he : e0 ≤ N) :
    (app.action_exchange_selection source s0 e0).action_exchange_selection source s0 e0
      = app := by
  have hR12 : (app.exchangeRange source s0 e0).1 ≤ (app.exchangeRange source s0 e0).2 := by
    simp only [XOREditApp.exchangeRange]
    split_ifs <;> simp <;> omega
  have hR2 : (app.exchangeRange source s0 e0).2 ≤ N :=
    le_trans (exchangeRange_le app source s0 e0) (le_of_eq hdt)
  have hR1 : (app.exchangeRange source s0 e0).1 ≤ N := le_trans hR12 hR2
  have hT1 : ((app.getArea source).edit
      { text := get_text_range (app.getArea source.other).text
          (app.exchangeRange source s0 e0).1 (app.exchangeRange source s0 e0).2,
        fromX := (app.exchangeRange source s0 e0).1,
        toX := (app.exchangeRange source s0 e0).2 }).text
      = (app.getArea source).text.take (app.exchangeRange source s0 e0).1
        ++ ((app.getArea source.other).text.drop (app.exchangeRange source s0 e0).1).take
            ((app.exchangeRange source s0 e0).2 - (app.exchangeRange source s0 e0).1)
        ++ (app.getArea source).text.drop (app.exchangeRange source s0 e0).2 := by
    rw [get_text_range_of_le _ _ _ hR12]
    exact edit_text_splice _ _ _ _ hR12 (by omega)
      (by simp only [List.length_take, List.length_drop]; omega)
  have hU1 : ((app.getArea source.other).edit
      { text := get_text_range (app.getArea source).text
          (app.exchangeRange source s0 e0).1 (app.exchangeRange source s0 e0).2,
        fromX := (app.exchangeRange source s0 e0).1,
        toX := (app.exchangeRange source s0 e0).2 }).text
      = (app.getArea source.other).text.take (app.exchangeRange source s0 e0).1
        ++ ((app.getArea source).text.drop (app.exchangeRange source s0 e0).1).take
            ((app.exchangeRange source s0 e0).2 - (app.exchangeRange source s0 e0).1)
        ++ (app.getArea source.other).text.drop (app.exchangeRange source s0 e0).2 := by
    rw [get_text_range_of_le _ _ _ hR12]
    exact edit_text_splice _ _ _ _ hR12 (by omega)
      (by simp only [List.length_take, List.length_drop]; omega)
  have hA1s : ((app.action_exchange_selection source s0 e0)).getArea source
      = { data := (app.getArea source).data.take (app.exchangeRange source s0 e0).1
            ++ ((app.getArea source.other).data.drop (app.exchangeRange source s0 e0).1).take
                ((app.exchangeRange source s0 e0).2 - (app.exchangeRange source s0 e0).1)
            ++ (app.getArea source).data.drop (app.exchangeRange source s0 e0).2,
          text := (app.getArea source).text.take (app.exchangeRange source s0 e0).1
            ++ ((app.getArea source.other).text.drop (app.exchangeRange source s0 e0).1).take
                ((app.exchangeRange source s0 e0).2 - (app.exchangeRange source s0 e0).1)
            ++ (app.getArea source).text.drop (app.exchangeRange source s0 e0).2 } := by
    rw [exchange_src_area, hT1]
  have hA1d : ((app.action_exchange_selection source s0 e0)).getArea source.other
      = { data := (app.getArea source.other).data.take (app.exchangeRange source s0 e0).1
            ++ ((app.getArea source).data.drop (app.exchangeRange source s0 e0).1).take
                ((app.exchangeRange source s0 e0).2 - (app.exchangeRange source s0 e0).1)
            ++ (app.getArea source.other).data.drop (app.exchangeRange source s0 e0).2,
          text := (app.getArea source.other).text.take (app.exchangeRange source s0 e0).1
            ++ ((app.getArea source).text.drop (app.exchangeRange source s0 e0).1).take
                ((app.exchangeRange source s0 e0).2 - (app.exchangeRange source s0 e0).1)
            ++ (app.getArea source.other).text.drop (app.exchangeRange source s0 e0).2 } := by
    rw [exchange_dst_area, hU1]
  have hlen_dt1 : (((app.action_exchange_selection source s0 e0)).getArea
      source.other).text.length = N := by
    rw [hA1d]
    dsimp only
    simp only [List.length_append, List.length_take, List.length_drop]
    omega
  have hrr : (app.action_exchange_selection source s0 e0).exchangeRange source s0 e0
      = app.exchangeRange source s0 e0 :=
    exchangeRange_congr app _ source s0 e0 (by rw [hlen_dt1, hdt])
  refine XOREditApp.ext_areas _ _ source ?_ ?_ ?_ ?_ ?_
  · rw [exchange_src_area, hrr, hA1s, hA1d]
    refine EditArea.ext2 _ _ ?_ ?_
    · dsimp only
      exact swap_swap _ _ _ _ hR12 (by omega) (by omega)
    · dsimp only
      rw [get_text_range_of_le _ _ _ hR12]
      rw [edit_text_splice _ _ _ _ hR12
        (by dsimp only
            simp only [List.length_append, List.length_take, List.length_drop]
            omega)
        (by simp only [List.length_append, List.length_take, List.length_drop]
            omega)]
      exact swap_swap _ _ _ _ hR12 (by omega) (by omega)
  · rw [exchange_dst_area, hrr, hA1s, hA1d]
    refine EditArea.ext2 _ _ ?_ ?_
    · dsimp only
      exact swap_swap _ _ _ _ hR12 (by omega) (by omega)
    · dsimp only
      rw [get_text_range_of_le _ _ _ hR12]
      rw [edit_text_splice _ _ _ _ hR12
        (by dsimp only
            simp only [List.length_append, List.length_take, List.length_drop]
            omega)
        (by simp only [List.length_append, List.length_take, List.length_drop]
            omega)]
      exact swap_swap _ _ _ _ hR12 (by omega) (by omega)
  · rw [exchange_keystream, exchange_keystream]
  · rw [exchange_show_pipes, exchange_show_pipes]
  · rw [exchange_show_offsets, exchange_show_offsets]

/-- Witness for C5 (amended) on an equal-length session. -/
theorem C5_exchange_involution_witness :
    ((XOREditApp.load_data [1, 2] [3, 4]).action_exchange_selection .top 0 1).action_exchange_selection
        .top 0 1 = XOREditApp.load_data [1, 2] [3, 4] :=
  C5_exchange_involution (XOREditApp.load_data [1, 2] [3, 4]) .top 0 1 2
    (by decide) (by decide) (by decide) (by decide) (by decide) (by decide)

/-- Counterexample for C5 as stated: on buffers of unequal lengths 1 and 2,
a valid bare-cursor exchange at the end of the focused top buffer is not
undone by repeating it (the bottom buffer permanently loses a cell). -/
theorem C5_counterexample :
    Op.valid (XOREditApp.load_data [0] [0, 0]) (Op.exchange .top 1 1) = true ∧
      ((XOREditApp.load_data [0] [0, 0]).action_exchange_selection .top
          1 1).action_exchange_selection .top 1 1
        ≠ XOREditApp.load_data [0] [0, 0] := by
  decide

theorem fixup_getArea_dst (app : XOREditApp) (area : AreaId) (e : Edit) :
    (app.fixup_and_edit area e).getArea area.other
      = (app.getArea area.other).fixup_and_edit_noemit
          { text := (e.text.zip ((app.keystream.drop e.fromX).take (e.toX - e.fromX))).map
              (fun p => Char.ofNat (p.1.toNat ^^^ p.2)),
            fromX := e.fromX, toX := e.toX } := by
  cases area <;> rfl

/-- C3: after a mirrored replace of the range from start to stop by new
bytes, every cell of the partner buffer in the applied range is
Known(new_bytes XOR keystream) where the new bytes and the keystream both
cover the index, and Unknown otherwise (in particular at every index at or
beyond the keystream length). -/
theorem C3_mirrored_edit_partner (app : XOREditApp) (source : AreaId) (insert : List Char)
    (start stop i : Nat)
    (hks : ∀ b ∈ app.keystream, b < 256)
    (hins : ∀ c ∈ insert, c.toNat < 256)
    (hse : start ≤ stop)
    (hi1 : start ≤ i)
    (hi2 : i < start + insert.length + (stop - start - insert.length))
    (hi3 : i < (app.getArea source.other).data.length) :
    ((app.replaceOp source insert start stop).getArea source.other).data[i]?
      = if i - start < insert.length ∧ i < app.keystream.length
        then some (some ((insert[i - start]!).toNat ^^^ app.keystream[i]!))
        else some none := by
  have hstep : app.replaceOp source insert start stop
      = app.fixup_and_edit source
          { text := insert, fromX := start,
            toX := start + insert.length + (stop - start - insert.length) } := by
    simp only [XOREditApp.replaceOp]
    rw [if_neg (by omega : ¬ (stop < start))]
  rw [hstep, fixup_getArea_dst, noemit_data]
  rw [fixup_data_getElem _ _ i hi3]
  simp only [List.length_append, List.length_map, List.length_replicate, List.length_zip,
    List.length_take, List.length_drop, editPadding_toNat, inf_eq_min]
  rw [if_neg (by omega)]
  rw [if_pos (by omega)]
  by_cases hc : i - start < insert.length ∧ i < app.keystream.length
  · rw [if_pos hc]
    rw [List.getElem?_append]
    rw [if_pos (by simp only [List.length_map, List.length_zip, List.length_take,
      List.length_drop, inf_eq_min]; omega)]
    rw [List.getElem?_map, List.getElem?_map]
    have hz : i - start
        < (insert.zip ((app.keystream.drop start).take
            (start + insert.length + (stop - start - insert.length) - start))).length := by
      simp only [List.length_zip, List.length_take, List.length_drop, inf_eq_min]
      omega
    rw [List.getElem?_eq_getElem hz, List.getElem_zip]
    simp only [Option.map_some']
    have h6 : i - start < ((app.keystream.drop start).take
        (start + insert.length + (stop - start - insert.length) - start)).length := by
      simp only [List.length_take, List.length_drop]
      omega
    have hik : i < app.keystream.length := hc.2
    have hkb : ((app.keystream.drop start).take
        (start + insert.length + (stop - start - insert.length) - start))[i - start]
          = app.keystream[i]! := by
      have h7 : ((app.keystream.drop start).take
          (start + insert.length + (stop - start - insert.length) - start))[i - start]?
          = app.keystream[i]? := by
        rw [List.getElem?_take, if_pos (by omega), List.getElem?_drop]
        congr 1
        omega
      rw [List.getElem?_eq_getElem h6, List.getElem?_eq_getElem hik] at h7
      rw [Option.some_injective _ h7, getElem!_pos app.keystream i hik]
    rw [hkb]
    have hjlt : i - start < insert.length := hc.1
    rw [getElem!_pos insert (i - start) hjlt, getElem!_pos app.keystream i hik]
    have hb1 : (insert[i - start]).toNat < 256 := hins _ (List.getElem_mem hjlt)
    have hb2 : app.keystream[i]! < 256 := by
      rw [getElem!_pos app.keystream i hik]
      exact hks _ (List.getElem_mem hik)
    rw [getElem!_pos app.keystream i hik] at hb2
    have hxor : (insert[i - start]).toNat ^^^ app.keystream[i] < 55296 := by
      have h8 : (insert[i - start]).toNat ^^^ app.keystream[i] < 256 := by
        have h9 : (256 : Nat) = 2 ^ 8 := by norm_num
        rw [h9] at hb1 hb2 ⊢
        exact Nat.xor_lt_two_pow hb1 hb2
      omega
    rw [char_toNat_ofNat hxor]
  · rw [if_neg hc]
    rw [List.getElem?_append]
    rw [if_neg (by simp only [List.length_map, List.length_zip, List.length_take,
      List.length_drop, inf_eq_min]; omega)]
    rw [List.getElem?_replicate]
    rw [if_pos (by simp only [List.length_map, List.length_zip, List.length_take,
      List.length_drop, inf_eq_min]; omega)]

/-- Witness for C3: typing the guess H at offset 0 sets the partner cell to
Known(H XOR keystream[0]). -/
theorem C3_mirrored_edit_partner_witness :
    (((XOREditApp.load_data [72, 101] [0, 4]).replaceOp .top ['H'] 0 1).getArea
        AreaId.top.other).data[0]?
      = if 0 - 0 < (['H'] : List Char).length
            ∧ 0 < (XOREditApp.load_data [72, 101] [0, 4]).keystream.length
        then some (some (((['H'] : List Char)[0 - 0]!).toNat
          ^^^ (XOREditApp.load_data [72, 101] [0, 4]).keystream[0]!))
        else some none :=
  C3_mirrored_edit_partner (XOREditApp.load_data [72, 101] [0, 4]) .top ['H'] 0 1 0
    (by decide) (by decide) (by decide) (by decide) (by decide) (by decide)
